import Mathlib

/-!
Shallow embedding of `src/packages/ra-data-json-server/src/index.ts`:
a react-admin data provider that maps generic data-access operations to
an OData-flavoured json-server REST API.

JavaScript values are modelled by the inductive type `JValue` (numbers as
`Int`; the claims never exercise non-integral numbers).  JavaScript objects
are association lists of fields; property read on a non-object yields
`undefined`, and property assignment on a non-object is modelled as a no-op
(non-strict JavaScript semantics).  The HTTP transport is an injected
function `Request → Except ε HttpResponse`; `Promise.all` is modelled by
`promiseAll`, which fails iff one of its inputs fails.
-/

/-- Model of a JavaScript value. -/
inductive JValue where
  | vNum : Int → JValue
  | vStr : String → JValue
  | vUndef : JValue
  | vArr : List JValue → JValue
  | vObj : List (String × JValue) → JValue

open JValue

/-- Property read, `json[k]`: the value of the first field named `k`;
`undefined` when the field is absent or the receiver is not an object. -/
def objGet (j : JValue) (k : String) : JValue :=
  match j with
  | vObj fields =>
    match fields.find? (fun p => p.1 == k) with
    | some p => p.2
    | none => vUndef
  | _ => vUndef

/-- Write into an association list: replace the value of the first entry
with key `k` (keeping its position, as JavaScript property writes do), or
append a fresh entry at the end. -/
def setEntry {α : Type} (l : List (String × α)) (k : String) (v : α) : List (String × α) :=
  match l with
  | [] => [(k, v)]
  | (k', v') :: rest => if k' = k then (k', v) :: rest else (k', v') :: setEntry rest k v

/-- Property assignment, `json[k] = v`; a no-op on non-objects. -/
def objSet (j : JValue) (k : String) (v : JValue) : JValue :=
  match j with
  | vObj fields => vObj (setEntry fields k v)
  | _ => j

/-- The statement `delete json[k]`; a no-op on non-objects. -/
def deleteField (j : JValue) (k : String) : JValue :=
  match j with
  | vObj fields => vObj (fields.filter (fun p => p.1 != k))
  | _ => j

/-- Function `idFuncSingle` from the source: `json.id = json.Id; return json`. -/
def idFuncSingle (json : JValue) : JValue :=
  objSet json "id" (objGet json "Id")

/-- Function `idFunc` from the source: apply `idFuncSingle` element-wise to an array,
directly to anything else. -/
def idFunc (json : JValue) : JValue :=
  match json with
  | vArr items => vArr (items.map idFuncSingle)
  | j => idFuncSingle j

/-- Whether a value is a (primitive) number or string. -/
def isNumOrStr : JValue → Bool
  | vNum _ => true
  | vStr _ => true
  | _ => false

/-!
JavaScript string conversion and numeric parsing.

`String(n)` for an (integral) number is decimal notation, `-` prefixed for
negatives.  `natToDigitsAux` is fuelled so that it is structurally
recursive and hence evaluates inside the kernel; `n + 1` units of fuel
always suffice.
-/

/-- The decimal digit character for `d % 10` (for `d ≤ 9`, the digit `d`). -/
def digitChar (d : Nat) : Char :=
  if d = 0 then '0' else if d = 1 then '1' else if d = 2 then '2' else if d = 3 then '3'
  else if d = 4 then '4' else if d = 5 then '5' else if d = 6 then '6' else if d = 7 then '7'
  else if d = 8 then '8' else '9'

def natToDigitsAux : Nat → Nat → List Char → List Char
  | 0, _, acc => acc
  | fuel + 1, n, acc =>
    if n < 10 then digitChar n :: acc
    else natToDigitsAux fuel (n / 10) (digitChar (n % 10) :: acc)

/-- Decimal digits of a natural number, most significant first. -/
def natDigits (n : Nat) : List Char := natToDigitsAux (n + 1) n []

/-- JavaScript `String(n)` for an integral JavaScript number, as a character list. -/
def jsIntDigits (n : Int) : List Char :=
  if n < 0 then '-' :: natDigits (-n).toNat else natDigits n.toNat

/-- JavaScript `String(v)` for the non-array cases (arrays are handled recursively by
`jsToStringArr` below; this function is their fallback and returns `""` on
an array, a case `jsToString` never reaches). -/
def jsPrimToString : JValue → String
  | vNum n => String.mk (jsIntDigits n)
  | vStr s => s
  | vUndef => "undefined"
  | vObj _ => "[object Object]"
  | vArr _ => ""

mutual
/-- JavaScript `Array.prototype.toString`: elements joined by `","`, with `undefined`
elements rendered as the empty string. -/
def jsToStringArr : List JValue → String
  | [] => ""
  | [x] => jsToStringElem x
  | x :: y :: xs => jsToStringElem x ++ "," ++ jsToStringArr (y :: xs)

def jsToStringElem : JValue → String
  | vUndef => ""
  | vArr ys => jsToStringArr ys
  | v => jsPrimToString v
end

/-- JavaScript `String(v)`: the string conversion. -/
def jsToString (v : JValue) : String :=
  match v with
  | vArr xs => jsToStringArr xs
  | v => jsPrimToString v

/-!
`isNaN(v)` coerces `v` with `Number(...)`; for strings this parses the
string as a (possibly signed, possibly fractional/exponent/radix-prefixed)
numeric literal, with surrounding whitespace allowed and the empty string
denoting `0`.  The model below follows that grammar.
-/

def jsWhitespaceChar (c : Char) : Bool :=
  c = ' ' || c = '\t' || c = '\n' || c = '\r' || c = '\x0b' || c = '\x0c' || c = ' '

/-- Strip leading and trailing JavaScript whitespace. -/
def trimChars (cs : List Char) : List Char :=
  ((cs.dropWhile jsWhitespaceChar).reverse.dropWhile jsWhitespaceChar).reverse

/-- Splits a character list into its maximal decimal-digit prefix and the rest. -/
def splitDigits : List Char → List Char × List Char
  | [] => ([], [])
  | c :: cs =>
    if c.isDigit then
      let p := splitDigits cs
      (c :: p.1, p.2)
    else ([], c :: cs)

/-- An optional exponent part: empty, or `e`/`E`, an optional sign, and at
least one digit consuming the whole rest. -/
def jsExpPart (cs : List Char) : Bool :=
  match cs with
  | [] => true
  | c :: rest =>
    if c = 'e' || c = 'E' then
      let rest2 : List Char :=
        match rest with
        | s :: r => if s = '+' || s = '-' then r else s :: r
        | [] => []
      let p := splitDigits rest2
      !p.1.isEmpty && p.2.isEmpty
    else false

/-- An unsigned decimal literal: `digits [. digits] [exp]` or `. digits [exp]`. -/
def jsDecimalLit (cs : List Char) : Bool :=
  let p := splitDigits cs
  match p.2 with
  | '.' :: r2 =>
    let q := splitDigits r2
    (!p.1.isEmpty || !q.1.isEmpty) && jsExpPart q.2
  | r1 => !p.1.isEmpty && jsExpPart r1

def infinityChars : List Char := ['I', 'n', 'f', 'i', 'n', 'i', 't', 'y']

def isHexDigitChar (c : Char) : Bool :=
  c.isDigit || ('a' ≤ c && c ≤ 'f') || ('A' ≤ c && c ≤ 'F')

def isOctDigitChar (c : Char) : Bool := '0' ≤ c && c ≤ '7'

def isBinDigitChar (c : Char) : Bool := c = '0' || c = '1'

/-- What may follow an explicit sign: `Infinity` or a decimal literal
(radix-prefixed literals may not be signed). -/
def jsSignedTail (cs : List Char) : Bool :=
  if cs = infinityChars then true else jsDecimalLit cs

/-- A radix-prefixed (`0x`/`0o`/`0b`) integer literal or a decimal literal. -/
def jsRadixOrDecimal : List Char → Bool
  | c0 :: c1 :: rest =>
    if c0 = '0' && (c1 = 'x' || c1 = 'X') then !rest.isEmpty && rest.all isHexDigitChar
    else if c0 = '0' && (c1 = 'o' || c1 = 'O') then !rest.isEmpty && rest.all isOctDigitChar
    else if c0 = '0' && (c1 = 'b' || c1 = 'B') then !rest.isEmpty && rest.all isBinDigitChar
    else jsDecimalLit (c0 :: c1 :: rest)
  | cs => jsDecimalLit cs

/-- An unsigned numeric literal: `Infinity`, a radix-prefixed integer, or a
decimal literal. -/
def jsUnsignedNum (cs : List Char) : Bool :=
  if cs = infinityChars then true else jsRadixOrDecimal cs

def jsNumericTrimmed (cs : List Char) : Bool :=
  match cs with
  | [] => true
  | c :: rest => if c = '+' || c = '-' then jsSignedTail rest else jsUnsignedNum cs

/-- Whether `Number(s)` is not `NaN` for a string `s`. -/
def jsNumericString (s : String) : Bool := jsNumericTrimmed (trimChars s.toList)

/-- JavaScript `isNaN(v)`: numbers (always integral here) are never `NaN`, `undefined`
coerces to `NaN`, and everything else coerces through its string conversion. -/
def jsIsNaN (v : JValue) : Bool :=
  match v with
  | vNum _ => false
  | vUndef => true
  | v => !jsNumericString (jsToString v)

/-- The filter compiler renders a value bare when `isNaN(val)` is false and
wrapped in single quotes otherwise (from the source's template
`isNaN(val) ? `'${val}'` : val`). -/
def renderVal (v : JValue) : String :=
  if jsIsNaN v then "'" ++ jsToString v ++ "'" else jsToString v

/-- Rendering determined by the string conversion alone: bare when the
string parses as a number, quoted otherwise. -/
def renderKey (s : String) : String :=
  if jsNumericString s then s else "'" ++ s ++ "'"

/-!
`value.sort()` with no comparator sorts by comparing `String(a)` with
`String(b)` code-unit–wise, and is stable (ECMAScript 2019).  A stable sort
for a total preorder is unique, so insertion sort by the same key models it
exactly.
-/

def jsKeyLe (a b : JValue) : Prop := jsToString a ≤ jsToString b

instance : DecidableRel jsKeyLe := fun a b => by
  unfold jsKeyLe
  infer_instance

instance : IsTotal JValue jsKeyLe := ⟨fun a b => le_total (jsToString a) (jsToString b)⟩

instance : IsTrans JValue jsKeyLe := ⟨fun _ _ _ h1 h2 => le_trans h1 h2⟩

/-- The call `value.sort()` from the source. -/
def jsSortVals (xs : List JValue) : List JValue := List.insertionSort jsKeyLe xs

/-!
The filter compiler `getOdataFilter`.  A filter object is modelled as the
insertion-ordered list of its fields (`for ... in` visits string keys in
insertion order).  `Array.prototype.join(sep)` is modelled by `joinSep`.
-/

/-- JavaScript `Array.prototype.join`: pieces joined by a separator. -/
def joinSep (sep : String) : List String → String
  | [] => ""
  | [a] => a
  | a :: b :: t => a ++ sep ++ joinSep sep (b :: t)

/-- The per-field values actually rendered: an array value is sorted, a
scalar is treated as the one-element array `[value]`. -/
def jsFilterValues (v : JValue) : List JValue :=
  match v with
  | vArr xs => jsSortVals xs
  | v => [v]

/-- One field's clause, `key in (v1, v2, ...)`. -/
def fieldClause (p : String × JValue) : String :=
  p.1 ++ " in (" ++ joinSep ", " ((jsFilterValues p.2).map renderVal) ++ ")"

/-- Function `getOdataFilter` from the source: fold over the filter object's fields,
separating clauses with `" or "` whenever the accumulated string is
truthy (non-empty). -/
def getOdataFilter (filterObj : List (String × JValue)) : String :=
  "$filter=" ++
    filterObj.foldl
      (fun filterString p =>
        if filterString ≠ "" then filterString ++ " or " ++ fieldClause p
        else filterString ++ fieldClause p)
      ""

/-!
The HTTP layer.  `httpClient` is the injected transport: it takes a request
and either resolves with a parsed JSON body or rejects with an error of an
abstract type `ε` (non-2xx status, network failure, malformed JSON — the
transport's concern).  `Promise.all` settles successfully with the list of
results when every input resolves, and rejects with a failing input's error
otherwise (modelled as the leftmost failure; the claims only rely on
"rejects with one of the sub-requests' errors").
-/

/-- An HTTP request as assembled by the provider (`fetchJson(url, options)`). -/
structure Request where
  url : String
  method : String
  body : Option String
deriving DecidableEq

/-- A resolved transport response: only the parsed JSON body is consumed by
the provider (headers are never used). -/
structure HttpResponse where
  json : JValue

def promiseAll {ε α : Type} : List (Except ε α) → Except ε (List α)
  | [] => .ok []
  | .error e :: _ => .error e
  | .ok a :: rest => (promiseAll rest).map (a :: ·)

/-- Model of `JSON.stringify`, for the values this provider sends.  Escaping covers
the quote, backslash and common control characters; object members whose
value is `undefined` are skipped; `undefined` inside an array serializes as
`null`. -/
def jsonEscapeChar (c : Char) : String :=
  if c = '"' then "\\\"" else if c = '\\' then "\\\\" else if c = '\n' then "\\n"
  else if c = '\r' then "\\r" else if c = '\t' then "\\t" else String.singleton c

def jsonQuote (s : String) : String :=
  "\"" ++ String.join (s.toList.map jsonEscapeChar) ++ "\""

mutual
def jsonStringifyVal : JValue → String
  | vNum n => String.mk (jsIntDigits n)
  | vStr s => jsonQuote s
  | vUndef => "null"
  | vArr xs => "[" ++ joinSep "," (jsonArrPieces xs) ++ "]"
  | vObj fields => "\x7b" ++ joinSep "," (jsonFieldPieces fields) ++ "\x7d"

def jsonArrPieces : List JValue → List String
  | [] => []
  | x :: rest => jsonStringifyVal x :: jsonArrPieces rest

def jsonFieldPieces : List (String × JValue) → List String
  | [] => []
  | (_, vUndef) :: rest => jsonFieldPieces rest
  | (k, v) :: rest => (jsonQuote k ++ ":" ++ jsonStringifyVal v) :: jsonFieldPieces rest
end

/-- Model of `JSON.stringify(v)` (top-level `undefined`, which serializes to no body
at all, does not occur in the modelled calls). -/
def jsonStringify (v : JValue) : String := jsonStringifyVal v

/-!
Query assembly for `getList`.  `fetchUtils.flattenObject(params.filter)` is
an external collaborator; its output — the flattened filter, a mapping from
parameter name to a primitive value — is taken as the handler's input.
The object literal `{...flattened, _sort, _order, _start, _end}` writes the
four list-control keys into a copy of the flattened filter, later writes
overriding earlier ones. -/

inductive QVal where
  | qStr : String → QVal
  | qInt : Int → QVal
deriving DecidableEq

/-- Lookup in a query-parameter mapping. -/
def qLookup (q : List (String × QVal)) (k : String) : Option QVal :=
  (q.find? (fun p => p.1 == k)).map (fun p => p.2)

/-- The query object built by `getList`:
`{...flattenObject(params.filter), _sort: field, _order: order,
_start: (page-1)*perPage, _end: page*perPage}`. -/
def getListQuery (flatFilter : List (String × QVal)) (page perPage : Int)
    (field order : String) : List (String × QVal) :=
  setEntry
    (setEntry
      (setEntry
        (setEntry flatFilter "_sort" (.qStr field))
        "_order" (.qStr order))
      "_start" (.qInt ((page - 1) * perPage)))
    "_end" (.qInt (page * perPage))

def qValToString : QVal → String
  | .qStr s => s
  | .qInt n => String.mk (jsIntDigits n)

/-- The external `stringify` collaborator from the `query-string` package,
modelled as a plain `k=v` join (URL escaping is outside the model; the
claims are about the query mapping, not its serialization). -/
def stringifyQuery (q : List (String × QVal)) : String :=
  joinSep "&" (q.map (fun p => p.1 ++ "=" ++ qValToString p.2))

/-!
The nine operation handlers, from the factory
`(apiUrl, httpClient) => ({ getList, getOne, getMany, getManyReference,
update, updateMany, create, delete, deleteMany })`.
Each handler is written as a function of the injected transport `client`;
alongside its settled outcome it exposes the request(s) it dispatches, so
that claims about "requests issued" are statable.
-/

/-- Result shape of the list-returning handlers. -/
structure ListResult where
  data : JValue
  total : Nat

/-- Result shape of the single-record handlers. -/
structure DataResult where
  data : JValue

/-- JavaScript `value.length` (`value` is always an array in the modelled responses). -/
def jsLength (v : JValue) : Nat :=
  match v with
  | vArr xs => xs.length
  | vStr s => s.length
  | _ => 0

/-- The GET request assembled by `getList`. -/
def getListRequest (apiUrl resource : String) (flatFilter : List (String × QVal))
    (page perPage : Int) (field order : String) : Request :=
  { url := apiUrl ++ "/" ++ resource ++ "?" ++
      stringifyQuery (getListQuery flatFilter page perPage field order),
    method := "GET", body := none }

/-- Handler `getList`: one GET; the response envelope's `value` array is normalized
and its length reported as `total`. -/
def getList {ε : Type} (apiUrl resource : String) (flatFilter : List (String × QVal))
    (page perPage : Int) (field order : String)
    (client : Request → Except ε HttpResponse) : Request × Except ε ListResult :=
  let req := getListRequest apiUrl resource flatFilter page perPage field order
  (req, (client req).map (fun resp =>
    let value := objGet resp.json "value"
    { data := idFunc value, total := jsLength value }))

/-- Handler `getOne`: one GET to `resource/id`; the whole body is normalized. -/
def getOne {ε : Type} (apiUrl resource : String) (id : JValue)
    (client : Request → Except ε HttpResponse) : Request × Except ε DataResult :=
  let req : Request :=
    { url := apiUrl ++ "/" ++ resource ++ "/" ++ jsToString id, method := "GET", body := none }
  (req, (client req).map (fun resp => { data := idFunc resp.json }))

/-- Handler `getMany`: one GET filtered by `$filter=Id in (ids...)`; the envelope's
`value` array is normalized. -/
def getMany {ε : Type} (apiUrl resource : String) (ids : List JValue)
    (client : Request → Except ε HttpResponse) : Request × Except ε DataResult :=
  let odataFilter := getOdataFilter [("Id", vArr ids)]
  let req : Request :=
    { url := apiUrl ++ "/" ++ resource ++ "?" ++ odataFilter, method := "GET", body := none }
  (req, (client req).map (fun resp => { data := idFunc (objGet resp.json "value") }))

/-- Handler `getManyReference`: one GET filtered by `$filter=target in (id)`. -/
def getManyReference {ε : Type} (apiUrl resource target : String) (id : JValue)
    (client : Request → Except ε HttpResponse) : Request × Except ε ListResult :=
  let req : Request :=
    { url := apiUrl ++ "/" ++ resource ++ "?" ++ getOdataFilter (setEntry [] target id),
      method := "GET", body := none }
  (req, (client req).map (fun resp =>
    let value := objGet resp.json "value"
    { data := idFunc value, total := jsLength value }))

/-- The PUT request assembled by `update` (after `delete params.data.id`). -/
def updateRequest (apiUrl resource : String) (id : JValue) (data : JValue) : Request :=
  { url := apiUrl ++ "/" ++ resource ++ "/" ++ jsToString id, method := "PUT",
    body := some (jsonStringify (deleteField data "id")) }

/-- The settled state of an `update` call: the final value of the caller's
`params.data` object (which `update` mutates: first `delete params.data.id`
before dispatching, then — only on success — `idFunc(params.data)` in the
`.then`), the request dispatched, and the outcome. -/
structure UpdateRun (ε : Type) where
  finalData : JValue
  request : Request
  result : Except ε DataResult

/-- Handler `update`: strips `id` from `params.data` in place, PUTs the stripped
data, and resolves with `idFunc(params.data)` — ignoring the response body. -/
def update {ε : Type} (apiUrl resource : String) (id : JValue) (data : JValue)
    (client : Request → Except ε HttpResponse) : UpdateRun ε :=
  let data2 := deleteField data "id"
  let req := updateRequest apiUrl resource id data
  match client req with
  | .ok _ => { finalData := idFunc data2, request := req, result := .ok { data := idFunc data2 } }
  | .error e => { finalData := data2, request := req, result := .error e }

/-- One of the PUT requests dispatched by `updateMany`. -/
def updateManyRequest (apiUrl resource : String) (data : JValue) (id : JValue) : Request :=
  { url := apiUrl ++ "/" ++ resource ++ "/" ++ jsToString id, method := "PUT",
    body := some (jsonStringify data) }

/-- The requests dispatched by `updateMany`: one PUT per id, same body. -/
def updateManyRequests (apiUrl resource : String) (ids : List JValue) (data : JValue) :
    List Request :=
  ids.map (updateManyRequest apiUrl resource data)

/-- Handler `updateMany`: N parallel PUTs joined by `Promise.all`; resolves with the
`Id` field of each response's body, in the input order. -/
def updateMany {ε : Type} (apiUrl resource : String) (ids : List JValue) (data : JValue)
    (client : Request → Except ε HttpResponse) : List Request × Except ε DataResult :=
  let reqs := updateManyRequests apiUrl resource ids data
  (reqs, (promiseAll (reqs.map client)).map (fun responses =>
    { data := vArr (responses.map (fun resp => objGet resp.json "Id")) }))

/-- Handler `create`: one POST with the serialized data; the response body is
normalized. -/
def create {ε : Type} (apiUrl resource : String) (data : JValue)
    (client : Request → Except ε HttpResponse) : Request × Except ε DataResult :=
  let req : Request :=
    { url := apiUrl ++ "/" ++ resource, method := "POST", body := some (jsonStringify data) }
  (req, (client req).map (fun resp => { data := idFunc resp.json }))

/-- Handler `delete`: one DELETE to `resource/id`; resolves with `idFunc(params)`
(the whole params object, a quirk of the source). -/
def deleteOne {ε : Type} (apiUrl resource : String) (params : JValue)
    (client : Request → Except ε HttpResponse) : Request × Except ε DataResult :=
  let req : Request :=
    { url := apiUrl ++ "/" ++ resource ++ "/" ++ jsToString (objGet params "id"),
      method := "DELETE", body := none }
  (req, (client req).map (fun _ => { data := idFunc params }))

/-- One of the DELETE requests dispatched by `deleteMany`. -/
def deleteManyRequest (apiUrl resource : String) (id : JValue) : Request :=
  { url := apiUrl ++ "/" ++ resource ++ "/" ++ jsToString id, method := "DELETE", body := none }

/-- The requests dispatched by `deleteMany`: one DELETE per id. -/
def deleteManyRequests (apiUrl resource : String) (ids : List JValue) : List Request :=
  ids.map (deleteManyRequest apiUrl resource)

/-- Handler `deleteMany`: N parallel DELETEs joined by `Promise.all`; the response
bodies are discarded and the call resolves with `idFunc(params.ids)`. -/
def deleteMany {ε : Type} (apiUrl resource : String) (ids : List JValue)
    (client : Request → Except ε HttpResponse) : List Request × Except ε DataResult :=
  let reqs := deleteManyRequests apiUrl resource ids
  (reqs, (promiseAll (reqs.map client)).map (fun _ => { data := idFunc (vArr ids) }))

/-! ## Lemmas and claim theorems -/

theorem find?_setEntry_self {α : Type} (l : List (String × α)) (k : String) (v : α) :
    (setEntry l k v).find? (fun p => p.1 == k) = some (k, v) := by
  induction l with
  | nil => simp [setEntry]
  | cons hd tl ih =>
    obtain ⟨k', v'⟩ := hd
    by_cases h : k' = k
    · subst h; simp [setEntry]
    · simp [setEntry, h, List.find?, ih]

theorem find?_setEntry_other {α : Type} (l : List (String × α)) (k k' : String) (v : α)
    (hne : k' ≠ k) :
    (setEntry l k v).find? (fun p => p.1 == k') = l.find? (fun p => p.1 == k') := by
  induction l with
  | nil => simp [setEntry, List.find?, (by simpa using hne.symm : ¬ (k == k') = true)]
  | cons hd tl ih =>
    obtain ⟨k₀, v₀⟩ := hd
    by_cases h : k₀ = k
    · subst h
      have : ¬ (k₀ == k') = true := by simpa using fun h => hne h.symm
      simp [setEntry, List.find?, this]
    · by_cases h2 : k₀ = k'
      · subst h2; simp [setEntry, h, List.find?]
      · have hb : (k₀ == k') = false := by simpa using h2
        simp [setEntry, h, List.find?, hb, ih]

theorem objGet_objSet_self (j : JValue) (k : String) (v : JValue) (l : List (String × JValue))
    (hj : j = vObj l) : objGet (objSet j k v) k = v := by
  subst hj
  simp [objSet, objGet, find?_setEntry_self]

theorem objGet_objSet_other (j : JValue) (k k' : String) (v : JValue) (hne : k' ≠ k) :
    objGet (objSet j k v) k' = objGet j k' := by
  cases j <;> simp [objSet, objGet]
  rw [find?_setEntry_other _ _ _ _ hne]

theorem digitChar_props (d : Nat) :
    (digitChar d).isDigit = true ∧ jsWhitespaceChar (digitChar d) = false ∧
    digitChar d ≠ '+' ∧ digitChar d ≠ '-' ∧ digitChar d ≠ 'I' ∧
    digitChar d ≠ 'x' ∧ digitChar d ≠ 'X' ∧ digitChar d ≠ 'o' ∧ digitChar d ≠ 'O' ∧
    digitChar d ≠ 'b' ∧ digitChar d ≠ 'B' := by
  unfold digitChar
  split_ifs <;> exact (by decide)

theorem natToDigitsAux_mem (fuel : Nat) :
    ∀ n acc c, c ∈ natToDigitsAux fuel n acc → (∃ d, c = digitChar d) ∨ c ∈ acc := by
  induction fuel with
  | zero => intro n acc c hc; exact Or.inr hc
  | succ f ih =>
    intro n acc c hc
    unfold natToDigitsAux at hc
    split at hc
    · rcases List.mem_cons.mp hc with h | h
      · exact Or.inl ⟨n, h⟩
      · exact Or.inr h
    · rcases ih (n / 10) (digitChar (n % 10) :: acc) c hc with h | h
      · exact Or.inl h
      · rcases List.mem_cons.mp h with h2 | h2
        · exact Or.inl ⟨n % 10, h2⟩
        · exact Or.inr h2

theorem natToDigitsAux_cons (fuel : Nat) :
    ∀ n acc, n < fuel → ∃ d rest, natToDigitsAux fuel n acc = digitChar d :: rest := by
  induction fuel with
  | zero => intro n acc h; omega
  | succ f ih =>
    intro n acc h
    unfold natToDigitsAux
    split
    · exact ⟨n, acc, rfl⟩
    · exact ih (n / 10) _ (by omega)

theorem natDigits_shape (n : Nat) :
    ∃ d rest, natDigits n = digitChar d :: rest := by
  exact natToDigitsAux_cons (n + 1) n [] (by omega)

theorem natDigits_mem (n : Nat) (c : Char) (hc : c ∈ natDigits n) : ∃ d, c = digitChar d := by
  rcases natToDigitsAux_mem (n + 1) n [] c hc with h | h
  · exact h
  · cases h

theorem dropWhile_eq_self_of (p : Char → Bool) (l : List Char)
    (h : ∀ c ∈ l, p c = false) : l.dropWhile p = l := by
  cases l with
  | nil => rfl
  | cons a t => simp [List.dropWhile, h a (List.mem_cons_self a t)]

theorem trimChars_eq_self (l : List Char) (h : ∀ c ∈ l, jsWhitespaceChar c = false) :
    trimChars l = l := by
  unfold trimChars
  rw [dropWhile_eq_self_of _ _ h]
  rw [dropWhile_eq_self_of _ _ (fun c hc => h c (List.mem_reverse.mp hc))]
  exact List.reverse_reverse l

theorem splitDigits_all (l : List Char) (h : ∀ c ∈ l, c.isDigit = true) :
    splitDigits l = (l, []) := by
  induction l with
  | nil => rfl
  | cons a t ih =>
    have ha := h a (List.mem_cons_self a t)
    have ht := ih (fun c hc => h c (List.mem_cons_of_mem a hc))
    simp [splitDigits, ha, ht]

theorem jsDecimalLit_digits (l : List Char) (hne : l ≠ [])
    (h : ∀ c ∈ l, c.isDigit = true) : jsDecimalLit l = true := by
  unfold jsDecimalLit
  rw [splitDigits_all l h]
  cases l with
  | nil => exact absurd rfl hne
  | cons a t =>
    have ha := h a (List.mem_cons_self a t)
    have hne2 : a ≠ '.' := fun hc => by rw [hc] at ha; cases ha
    simp [jsExpPart]

theorem digitList_ne_infinity (l : List Char) (d : Nat) (rest : List Char)
    (hl : l = digitChar d :: rest) : l ≠ infinityChars := by
  subst hl
  intro hc
  have hne := (digitChar_props d).2.2.2.2.1
  unfold infinityChars at hc
  injection hc with h1 h2
  exact hne h1

theorem jsUnsignedNum_digits (l : List Char)
    (hd : ∃ d rest, l = digitChar d :: rest)
    (h : ∀ c ∈ l, c.isDigit = true) : jsUnsignedNum l = true := by
  obtain ⟨d, rest, hl⟩ := hd
  unfold jsUnsignedNum
  rw [if_neg (by exact fun hc => digitList_ne_infinity l d rest hl hc)]
  subst hl
  cases rest with
  | nil => exact jsDecimalLit_digits _ (by simp) h
  | cons c1 t =>
    have h1 := h c1 (by simp)
    have hx : c1 ≠ 'x' := fun hc => by rw [hc] at h1; cases h1
    have hX : c1 ≠ 'X' := fun hc => by rw [hc] at h1; cases h1
    have ho : c1 ≠ 'o' := fun hc => by rw [hc] at h1; cases h1
    have hO : c1 ≠ 'O' := fun hc => by rw [hc] at h1; cases h1
    have hb : c1 ≠ 'b' := fun hc => by rw [hc] at h1; cases h1
    have hB : c1 ≠ 'B' := fun hc => by rw [hc] at h1; cases h1
    simp only [jsRadixOrDecimal]
    rw [if_neg (by simp [hx, hX]), if_neg (by simp [ho, hO]), if_neg (by simp [hb, hB])]
    exact jsDecimalLit_digits _ (by simp) h

theorem jsNumericTrimmed_digits (l : List Char)
    (hd : ∃ d rest, l = digitChar d :: rest)
    (h : ∀ c ∈ l, c.isDigit = true) : jsNumericTrimmed l = true := by
  obtain ⟨d, rest, hl⟩ := hd
  subst hl
  simp only [jsNumericTrimmed]
  have hplus := (digitChar_props d).2.2.1
  have hminus := (digitChar_props d).2.2.2.1
  rw [if_neg (by simp [hplus, hminus])]
  exact jsUnsignedNum_digits _ ⟨d, rest, rfl⟩ h

theorem jsNumericString_natDigits (n : Nat) :
    jsNumericString (String.mk (natDigits n)) = true := by
  unfold jsNumericString
  have hmem : ∀ c ∈ natDigits n, ∃ d, c = digitChar d := natDigits_mem n
  have hdig : ∀ c ∈ natDigits n, c.isDigit = true := by
    intro c hc
    obtain ⟨d, hd⟩ := hmem c hc
    rw [hd]; exact (digitChar_props d).1
  have hws : ∀ c ∈ natDigits n, jsWhitespaceChar c = false := by
    intro c hc
    obtain ⟨d, hd⟩ := hmem c hc
    rw [hd]; exact (digitChar_props d).2.1
  have htoList : (String.mk (natDigits n)).toList = natDigits n := rfl
  rw [htoList, trimChars_eq_self _ hws]
  exact jsNumericTrimmed_digits _ (natDigits_shape n) hdig

theorem jsNumericString_jsIntDigits (n : Int) :
    jsNumericString (String.mk (jsIntDigits n)) = true := by
  unfold jsIntDigits
  split
  · unfold jsNumericString
    set m := (-n).toNat with hm
    have hmem : ∀ c ∈ natDigits m, ∃ d, c = digitChar d := natDigits_mem m
    have hdig : ∀ c ∈ natDigits m, c.isDigit = true := by
      intro c hc
      obtain ⟨d, hd⟩ := hmem c hc
      rw [hd]; exact (digitChar_props d).1
    have hws : ∀ c ∈ ('-' :: natDigits m), jsWhitespaceChar c = false := by
      intro c hc
      rcases List.mem_cons.mp hc with h | h
      · rw [h]; rfl
      · obtain ⟨d, hd⟩ := hmem c h
        rw [hd]; exact (digitChar_props d).2.1
    have htoList : (String.mk ('-' :: natDigits m)).toList = '-' :: natDigits m := rfl
    rw [htoList, trimChars_eq_self _ hws]
    simp only [jsNumericTrimmed]
    rw [if_pos (by decide)]
    unfold jsSignedTail
    obtain ⟨d, rest, hshape⟩ := natDigits_shape m
    rw [if_neg (digitList_ne_infinity _ d rest hshape)]
    exact jsDecimalLit_digits _ (by rw [hshape]; simp) hdig
  · exact jsNumericString_natDigits _

/-- Rendering a value in the filter compiler depends only on its string
conversion: an integral number always renders bare because its decimal
notation parses back as a number. -/
theorem renderVal_eq_renderKey (v : JValue) : renderVal v = renderKey (jsToString v) := by
  cases v with
  | vNum n =>
    unfold renderVal renderKey jsIsNaN
    rw [if_neg (by simp)]
    have : jsToString (vNum n) = String.mk (jsIntDigits n) := rfl
    rw [this, if_pos (jsNumericString_jsIntDigits n)]
  | vStr s =>
    unfold renderVal renderKey jsIsNaN
    cases h : jsNumericString (jsToString (vStr s)) <;> simp [h]
  | vUndef =>
    unfold renderVal renderKey jsIsNaN
    rw [if_pos rfl, if_neg (by decide)]
  | vArr xs =>
    unfold renderVal renderKey jsIsNaN
    cases h : jsNumericString (jsToString (vArr xs)) <;> simp [h]
  | vObj fields =>
    unfold renderVal renderKey jsIsNaN
    cases h : jsNumericString (jsToString (vObj fields)) <;> simp [h]

/-- The string keys of a sorted value list form a `≤`-sorted list. -/
theorem jsSortVals_keys_sorted (xs : List JValue) :
    List.Sorted (· ≤ ·) ((jsSortVals xs).map jsToString) :=
  List.Pairwise.map jsToString (fun _ _ h => h) (List.sorted_insertionSort jsKeyLe xs)

/-- Core of the permutation-invariance claim: sorting two permutations of
the same values and rendering them yields identical string lists, because
the rendered form of a value is a function of its sort key alone. -/
theorem jsSortVals_render_eq (xs ys : List JValue) (h : xs.Perm ys) :
    (jsSortVals xs).map renderVal = (jsSortVals ys).map renderVal := by
  have hperm : ((jsSortVals xs).map jsToString).Perm ((jsSortVals ys).map jsToString) :=
    List.Perm.map jsToString
      (((List.perm_insertionSort jsKeyLe xs).trans h).trans
        (List.perm_insertionSort jsKeyLe ys).symm)
  have hkeys : (jsSortVals xs).map jsToString = (jsSortVals ys).map jsToString :=
    List.eq_of_perm_of_sorted hperm (jsSortVals_keys_sorted xs) (jsSortVals_keys_sorted ys)
  have hfac : ∀ l : List JValue, l.map renderVal = (l.map jsToString).map renderKey := by
    intro l
    rw [List.map_map]
    exact List.map_congr_left (fun v _ => renderVal_eq_renderKey v)
  rw [hfac, hfac, hkeys]

theorem append_ne_empty_left (s t : String) (h : s ≠ "") : s ++ t ≠ "" := by
  intro hc
  have hd := congrArg String.data hc
  simp [String.data_append] at hd
  exact h (String.ext hd.1)

theorem fieldClause_ne_empty (p : String × JValue) : fieldClause p ≠ "" := by
  unfold fieldClause
  intro hc
  have hd := congrArg String.data hc
  simp [String.data_append] at hd

theorem joinSep_merge (sep a b : String) (t : List String) :
    joinSep sep ((a ++ sep ++ b) :: t) = a ++ sep ++ joinSep sep (b :: t) := by
  cases t with
  | nil => rfl
  | cons c t2 => simp [joinSep, String.append_assoc]

theorem foldl_clauses (l : List (String × JValue)) :
    ∀ acc : String, acc ≠ "" →
      l.foldl
        (fun filterString p =>
          if filterString ≠ "" then filterString ++ " or " ++ fieldClause p
          else filterString ++ fieldClause p)
        acc = joinSep " or " (acc :: l.map fieldClause) := by
  induction l with
  | nil => intro acc _; rfl
  | cons p t ih =>
    intro acc hacc
    rw [List.foldl_cons, if_pos hacc]
    rw [ih (acc ++ " or " ++ fieldClause p)
      (append_ne_empty_left _ _ (append_ne_empty_left _ _ hacc))]
    rw [List.map_cons, joinSep_merge]
    rfl

/-- The fold in `getOdataFilter` produces the `" or "`-join of the field
clauses. -/
theorem getOdataFilter_eq_joinSep (filterObj : List (String × JValue)) :
    getOdataFilter filterObj = "$filter=" ++ joinSep " or " (filterObj.map fieldClause) := by
  unfold getOdataFilter
  cases filterObj with
  | nil => rfl
  | cons p t =>
    rw [List.foldl_cons, if_neg (by simp)]
    have h0 : ("" : String) ++ fieldClause p = fieldClause p := rfl
    rw [h0, foldl_clauses t (fieldClause p) (fieldClause_ne_empty p), List.map_cons]

theorem promiseAll_map_ok {ε α : Type} (l : List Request)
    (g : Request → Except ε α) (f : Request → α)
    (h : ∀ x ∈ l, g x = .ok (f x)) : promiseAll (l.map g) = .ok (l.map f) := by
  induction l with
  | nil => rfl
  | cons r t ih =>
    rw [List.map_cons, List.map_cons]
    rw [h r (List.mem_cons_self r t)]
    show (promiseAll (t.map g)).map (f r :: ·) = .ok (f r :: t.map f)
    rw [ih (fun x hx => h x (List.mem_cons_of_mem r hx))]
    rfl

theorem promiseAll_ok_of_all {ε α : Type} (l : List (Except ε α))
    (h : ∀ x ∈ l, x.isOk = true) : ∃ as, promiseAll l = .ok as := by
  induction l with
  | nil => exact ⟨[], rfl⟩
  | cons x t ih =>
    obtain ⟨as, has⟩ := ih (fun y hy => h y (List.mem_cons_of_mem x hy))
    cases x with
    | ok a =>
      refine ⟨a :: as, ?_⟩
      show (promiseAll t).map (a :: ·) = _
      rw [has]; rfl
    | error e =>
      have := h (.error e) (List.mem_cons_self _ t)
      cases this

theorem promiseAll_error_of_mem {ε α : Type} (l : List (Except ε α)) (e : ε)
    (hmem : Except.error e ∈ l) :
    ∃ e2, promiseAll l = .error e2 ∧ Except.error e2 ∈ l := by
  induction l with
  | nil => cases hmem
  | cons x t ih =>
    cases x with
    | error e0 => exact ⟨e0, rfl, List.mem_cons_self _ t⟩
    | ok a =>
      have hmem2 : Except.error e ∈ t := by
        rcases List.mem_cons.mp hmem with h | h
        · cases h
        · exact h
      obtain ⟨e2, he2, hin⟩ := ih hmem2
      refine ⟨e2, ?_, List.mem_cons_of_mem _ hin⟩
      show (promiseAll t).map (a :: ·) = _
      rw [he2]; rfl

/-- Normalization leaves a primitive (number or string) id unchanged:
property assignment on a primitive is a no-op. -/
theorem idFuncSingle_prim (v : JValue) (h : isNumOrStr v = true) : idFuncSingle v = v := by
  cases v with
  | vNum n => rfl
  | vStr s => rfl
  | vUndef => cases h
  | vArr xs => cases h
  | vObj fields => cases h

theorem find?_filter_ne (fields : List (String × JValue)) (k k' : String) (hne : k' ≠ k) :
    (fields.filter (fun p => p.1 != k)).find? (fun p => p.1 == k') =
      fields.find? (fun p => p.1 == k') := by
  induction fields with
  | nil => rfl
  | cons p t ih =>
    obtain ⟨k₀, v₀⟩ := p
    by_cases h : k₀ = k
    · subst h
      have hb : (k₀ == k') = false := by simpa using fun hc => hne hc.symm
      rw [List.filter_cons]
      simp only [bne_self_eq_false]
      rw [if_neg (by simp)]
      rw [ih]
      rw [List.find?_cons]
      simp [hb]
    · rw [List.filter_cons]
      rw [if_pos (by simpa using h)]
      rw [List.find?_cons, List.find?_cons]
      cases hb : ((k₀, v₀).1 == k') <;> simp [hb, ih]

theorem objGet_deleteField_self (j : JValue) (k : String) :
    objGet (deleteField j k) k = vUndef := by
  cases j with
  | vObj fields =>
    have hfind : (fields.filter (fun p => p.1 != k)).find? (fun p => p.1 == k) = none := by
      rw [List.find?_eq_none]
      intro p hp
      have := (List.mem_filter.mp hp).2
      simpa using this
    simp only [deleteField, objGet, hfind]
  | vNum n => rfl
  | vStr s => rfl
  | vUndef => rfl
  | vArr xs => rfl

theorem objGet_deleteField_other (j : JValue) (k k' : String) (hne : k' ≠ k) :
    objGet (deleteField j k) k' = objGet j k' := by
  cases j with
  | vObj fields => simp only [deleteField, objGet, find?_filter_ne fields k k' hne]
  | vNum n => rfl
  | vStr s => rfl
  | vUndef => rfl
  | vArr xs => rfl

/-! ## The claims -/

/-- Claim C1: for every record with a numeric-or-string field `Id`, the
identifier normalizer (`idFunc`/`idFuncSingle`) yields a record whose `id`
field equals the record's `Id` value and whose every other field is
unchanged; on an array of records it applies element-wise, and the output
shape mirrors the input shape (array to array, single record to single
record). -/
theorem claim_C1 :
    (∀ fields : List (String × JValue),
      isNumOrStr (objGet (vObj fields) "Id") = true →
      objGet (idFuncSingle (vObj fields)) "id" = objGet (vObj fields) "Id" ∧
      ∀ k, k ≠ "id" → objGet (idFuncSingle (vObj fields)) k = objGet (vObj fields) k) ∧
    (∀ records : List JValue, idFunc (vArr records) = vArr (records.map idFuncSingle)) ∧
    (∀ fields : List (String × JValue), idFunc (vObj fields) = idFuncSingle (vObj fields)) := by
  refine ⟨?_, fun records => rfl, fun fields => rfl⟩
  intro fields _
  exact ⟨objGet_objSet_self _ _ _ fields rfl, fun k hk => objGet_objSet_other _ _ _ _ hk⟩

/-- Witness for C1 at the record `{Id: 7, title: "hello"}`. -/
theorem claim_C1_witness :
    objGet (idFuncSingle (vObj [("Id", vNum 7), ("title", vStr "hello")])) "id" =
      objGet (vObj [("Id", vNum 7), ("title", vStr "hello")]) "Id" ∧
    objGet (idFuncSingle (vObj [("Id", vNum 7), ("title", vStr "hello")])) "title" =
      objGet (vObj [("Id", vNum 7), ("title", vStr "hello")]) "title" :=
  ⟨(claim_C1.1 [("Id", vNum 7), ("title", vStr "hello")] rfl).1,
   (claim_C1.1 [("Id", vNum 7), ("title", vStr "hello")] rfl).2 "title" (by decide)⟩

/-- Claim C4: filter compilation is invariant under permutation of a
multi-valued filter's value list — the array is sorted before rendering,
and the rendered form of each value is a function of its sort key. -/
theorem claim_C4 (name : String) (xs ys : List JValue) (h : xs.Perm ys) :
    getOdataFilter [(name, vArr xs)] = getOdataFilter [(name, vArr ys)] := by
  rw [getOdataFilter_eq_joinSep, getOdataFilter_eq_joinSep]
  have hclause : fieldClause (name, vArr xs) = fieldClause (name, vArr ys) := by
    unfold fieldClause
    have hv : jsFilterValues (vArr xs) = jsSortVals xs := rfl
    have hw : jsFilterValues (vArr ys) = jsSortVals ys := rfl
    rw [hv, hw, jsSortVals_render_eq xs ys h]
  rw [List.map_cons, List.map_nil, hclause]
  rfl

/-- Witness for C4: `{Id: [3,1,2]}` and `{Id: [1,2,3]}` compile to the same
string. -/
theorem claim_C4_witness :
    getOdataFilter [("Id", vArr [vNum 3, vNum 1, vNum 2])] =
      getOdataFilter [("Id", vArr [vNum 1, vNum 2, vNum 3])] :=
  claim_C4 "Id" [vNum 3, vNum 1, vNum 2] [vNum 1, vNum 2, vNum 3]
    ((List.Perm.swap (vNum 1) (vNum 3) [vNum 2]).trans
      (List.Perm.cons (vNum 1) (List.Perm.swap (vNum 2) (vNum 3) [])))

/-- Claim C5: `getOdataFilter` returns `$filter=<expr>` where each field
contributes a clause `field in (v1, v2, ...)` — a scalar is a one-element
set, an array is sorted — with each value rendered bare when it parses as
a number and wrapped in single quotes otherwise, clauses joined by
`" or "`, and the empty specification yielding exactly `$filter=`; in
particular `{A: 1, B: 'x'}` compiles to `$filter=A in (1) or B in ('x')`. -/
theorem claim_C5 :
    (∀ filterObj : List (String × JValue),
      getOdataFilter filterObj = "$filter=" ++ joinSep " or " (filterObj.map fieldClause)) ∧
    (∀ p : String × JValue,
      fieldClause p = p.1 ++ " in (" ++ joinSep ", " ((jsFilterValues p.2).map renderVal) ++ ")") ∧
    (∀ n : Int, jsFilterValues (vNum n) = [vNum n]) ∧
    (∀ s : String, jsFilterValues (vStr s) = [vStr s]) ∧
    (∀ xs : List JValue, jsFilterValues (vArr xs) = jsSortVals xs) ∧
    (∀ v : JValue, renderVal v = renderKey (jsToString v)) ∧
    getOdataFilter [] = "$filter=" ∧
    getOdataFilter [("A", vNum 1), ("B", vStr "x")] = "$filter=A in (1) or B in ('x')" := by
  refine ⟨getOdataFilter_eq_joinSep, fun p => rfl, fun n => rfl, fun s => rfl, fun xs => rfl,
    renderVal_eq_renderKey, rfl, ?_⟩
  rfl

theorem qLookup_setEntry_self (l : List (String × QVal)) (k : String) (v : QVal) :
    qLookup (setEntry l k v) k = some v := by
  unfold qLookup
  rw [find?_setEntry_self]
  rfl

theorem qLookup_setEntry_other (l : List (String × QVal)) (k k' : String) (v : QVal)
    (hne : k' ≠ k) : qLookup (setEntry l k v) k' = qLookup l k' := by
  unfold qLookup
  rw [find?_setEntry_other _ _ _ _ hne]

/-- Claim C6: the query mapping built by `getList` carries exactly the
flattened filter entries plus `_sort = field`, `_order = order`,
`_start = (page-1)*perPage` and `_end = page*perPage`: the four list-control
parameters look up to those values, and every other key looks up to its
value in the flattened filter. -/
theorem claim_C6 (flatFilter : List (String × QVal)) (page perPage : Int)
    (field order : String) :
    qLookup (getListQuery flatFilter page perPage field order) "_sort" = some (.qStr field) ∧
    qLookup (getListQuery flatFilter page perPage field order) "_order" = some (.qStr order) ∧
    qLookup (getListQuery flatFilter page perPage field order) "_start" =
      some (.qInt ((page - 1) * perPage)) ∧
    qLookup (getListQuery flatFilter page perPage field order) "_end" =
      some (.qInt (page * perPage)) ∧
    (∀ k, k ≠ "_sort" → k ≠ "_order" → k ≠ "_start" → k ≠ "_end" →
      qLookup (getListQuery flatFilter page perPage field order) k = qLookup flatFilter k) := by
  unfold getListQuery
  refine ⟨?_, ?_, ?_, ?_, ?_⟩
  · rw [qLookup_setEntry_other _ _ _ _ (by decide), qLookup_setEntry_other _ _ _ _ (by decide),
      qLookup_setEntry_other _ _ _ _ (by decide), qLookup_setEntry_self]
  · rw [qLookup_setEntry_other _ _ _ _ (by decide), qLookup_setEntry_other _ _ _ _ (by decide),
      qLookup_setEntry_self]
  · rw [qLookup_setEntry_other _ _ _ _ (by decide), qLookup_setEntry_self]
  · rw [qLookup_setEntry_self]
  · intro k h1 h2 h3 h4
    rw [qLookup_setEntry_other _ _ _ _ h4, qLookup_setEntry_other _ _ _ _ h3,
      qLookup_setEntry_other _ _ _ _ h2, qLookup_setEntry_other _ _ _ _ h1]

/-- Witness for C6: page 2 with perPage 10 and sort `title`/`ASC` over the
flattened filter `{title_like: "ab"}` yields `_sort=title`, `_order=ASC`,
`_start=10`, `_end=20`, and leaves `title_like` untouched. -/
theorem claim_C6_witness :
    qLookup (getListQuery [("title_like", .qStr "ab")] 2 10 "title" "ASC") "_sort" =
      some (.qStr "title") ∧
    qLookup (getListQuery [("title_like", .qStr "ab")] 2 10 "title" "ASC") "_order" =
      some (.qStr "ASC") ∧
    qLookup (getListQuery [("title_like", .qStr "ab")] 2 10 "title" "ASC") "_start" =
      some (.qInt 10) ∧
    qLookup (getListQuery [("title_like", .qStr "ab")] 2 10 "title" "ASC") "_end" =
      some (.qInt 20) ∧
    qLookup (getListQuery [("title_like", .qStr "ab")] 2 10 "title" "ASC") "title_like" =
      some (.qStr "ab") := by
  have h := claim_C6 [("title_like", .qStr "ab")] 2 10 "title" "ASC"
  refine ⟨h.1, h.2.1, ?_, ?_, ?_⟩
  · have := h.2.2.1
    norm_num at this
    exact this
  · have := h.2.2.2.1
    norm_num at this
    exact this
  · rw [h.2.2.2.2 "title_like" (by decide) (by decide) (by decide) (by decide)]
    rfl

/-- Claim C7: when a `getList` response body is an envelope
`{value: records}`, the resolved result is the normalized records together
with `total` equal to the length of the returned `value` array (not any
server-reported total). -/
theorem claim_C7 {ε : Type} (apiUrl resource : String) (flatFilter : List (String × QVal))
    (page perPage : Int) (field order : String) (client : Request → Except ε HttpResponse)
    (records : List JValue) (json : JValue)
    (hval : objGet json "value" = vArr records)
    (hok : client (getListRequest apiUrl resource flatFilter page perPage field order) =
      .ok { json := json }) :
    (getList apiUrl resource flatFilter page perPage field order client).2 =
      .ok { data := vArr (records.map idFuncSingle), total := records.length } := by
  simp only [getList]
  rw [hok]
  simp only [Except.map, hval]
  rfl

/-- Witness for C7: a response `{value: [{Id: 3}]}` resolves with the
normalized record and `total = 1`. -/
theorem claim_C7_witness :
    (getList "http://api" "posts" [] 1 10 "title" "ASC"
      (fun _ => (Except.ok { json := vObj [("value", vArr [vObj [("Id", vNum 3)]])] } :
        Except Unit HttpResponse))).2 =
      .ok { data := vArr [vObj [("Id", vNum 3), ("id", vNum 3)]], total := 1 } :=
  claim_C7 "http://api" "posts" [] 1 10 "title" "ASC" _ [vObj [("Id", vNum 3)]]
    (vObj [("value", vArr [vObj [("Id", vNum 3)]])]) rfl rfl

/-- Claim C2: `deleteMany` dispatches exactly one DELETE request per id
(`N` requests for `N` ids, in order, each to `resource/id`), and when every
request succeeds it resolves with the input ids echoed back as `data` —
whatever the response bodies were. -/
theorem claim_C2 {ε : Type} (apiUrl resource : String) (ids : List JValue)
    (client : Request → Except ε HttpResponse)
    (hprim : ∀ id ∈ ids, isNumOrStr id = true) :
    (deleteMany apiUrl resource ids client).1.length = ids.length ∧
    (deleteMany apiUrl resource ids client).1 = ids.map (deleteManyRequest apiUrl resource) ∧
    (∀ r ∈ (deleteMany apiUrl resource ids client).1, r.method = "DELETE" ∧ r.body = none) ∧
    ((∀ r ∈ deleteManyRequests apiUrl resource ids, (client r).isOk = true) →
      (deleteMany apiUrl resource ids client).2 = .ok { data := vArr ids }) := by
  refine ⟨List.length_map ids _, rfl, ?_, ?_⟩
  · intro r hr
    obtain ⟨id, _, hid⟩ := List.mem_map.mp hr
    rw [← hid]
    exact ⟨rfl, rfl⟩
  · intro hok
    have hall : ∀ x ∈ (deleteManyRequests apiUrl resource ids).map client, x.isOk = true := by
      intro x hx
      obtain ⟨r, hr, hxr⟩ := List.mem_map.mp hx
      rw [← hxr]
      exact hok r hr
    obtain ⟨as, has⟩ := promiseAll_ok_of_all _ hall
    have hres : (deleteMany apiUrl resource ids client).2 =
        (promiseAll ((deleteManyRequests apiUrl resource ids).map client)).map
          (fun _ => ({ data := idFunc (vArr ids) } : DataResult)) := rfl
    have hids : ids.map idFuncSingle = ids := by
      rw [List.map_congr_left (fun x hx => idFuncSingle_prim x (hprim x hx))]
      simp
    rw [hres, has]
    show Except.ok ({ data := vArr (ids.map idFuncSingle) } : DataResult) = _
    rw [hids]

/-- Witness for C2: `deleteMany` on ids `[4, 5]` with an always-succeeding
transport dispatches 2 requests and resolves with `{data: [4, 5]}`. -/
theorem claim_C2_witness :
    (deleteMany "http://api" "posts" [vNum 4, vNum 5]
      (fun _ => (Except.ok { json := vObj [("ignored", vStr "body")] } :
        Except Unit HttpResponse))).1.length = 2 ∧
    (deleteMany "http://api" "posts" [vNum 4, vNum 5]
      (fun _ => (Except.ok { json := vObj [("ignored", vStr "body")] } :
        Except Unit HttpResponse))).2 = .ok { data := vArr [vNum 4, vNum 5] } := by
  have h := claim_C2 "http://api" "posts" [vNum 4, vNum 5]
    (fun _ => (Except.ok { json := vObj [("ignored", vStr "body")] } : Except Unit HttpResponse))
    (by decide)
  exact ⟨h.1, h.2.2.2 (fun r _ => rfl)⟩

/-- Claim C3 as stated is false: `update` does send the input data with the
`id` field stripped, but the resolved `data` is not the stripped input —
the `.then` applies `idFunc`, which re-creates `id` from the record's `Id`.
At input data `{Id: 7}` the resolved data is `{Id: 7, id: 7}`, not
`{Id: 7}`. -/
theorem claim_C3_counterexample :
    (update "http://api" "posts" (vNum 1) (vObj [("Id", vNum 7)])
        (fun _ => (Except.ok { json := vObj [] } : Except Unit HttpResponse))).result ≠
      Except.ok { data := deleteField (vObj [("Id", vNum 7)]) "id" } := by
  intro h
  have h2 : ({ data := vObj [("Id", vNum 7), ("id", vNum 7)] } : DataResult) =
      { data := vObj [("Id", vNum 7)] } := Except.ok.inj h
  have h3 : vObj [("Id", vNum 7), ("id", vNum 7)] = vObj [("Id", vNum 7)] :=
    congrArg DataResult.data h2
  injection h3 with h4
  have h5 := congrArg List.length h4
  simp at h5

/-- Claim C3, amended: the body of the single PUT is the input data with
any `id` field removed; the resolved `data` is that stripped input passed
through the identifier normalizer (its `id` set to the input's `Id`),
independent of the server's response payload. -/
theorem claim_C3_amended {ε : Type} (apiUrl resource : String) (id data : JValue)
    (client : Request → Except ε HttpResponse) :
    (update apiUrl resource id data client).request.body =
      some (jsonStringify (deleteField data "id")) ∧
    (∀ resp, client (updateRequest apiUrl resource id data) = .ok resp →
      (update apiUrl resource id data client).result =
        .ok { data := idFunc (deleteField data "id") }) ∧
    (∀ fields : List (String × JValue), data = vObj fields →
      objGet (idFunc (deleteField data "id")) "id" = objGet data "Id" ∧
      (∀ k, k ≠ "id" → objGet (idFunc (deleteField data "id")) k =
        objGet (deleteField data "id") k)) := by
  refine ⟨?_, ?_, ?_⟩
  · cases hc : client (updateRequest apiUrl resource id data) <;> simp [update, hc] <;> rfl
  · intro resp hok
    simp [update, hok]
  · intro fields hdata
    subst hdata
    have hform : deleteField (vObj fields) "id" =
        vObj (fields.filter (fun p => p.1 != "id")) := rfl
    constructor
    · have h1 : objGet (idFunc (deleteField (vObj fields) "id")) "id" =
          objGet (vObj (fields.filter (fun p => p.1 != "id"))) "Id" := by
        show objGet (objSet (vObj (fields.filter (fun p => p.1 != "id"))) "id"
          (objGet (vObj (fields.filter (fun p => p.1 != "id"))) "Id")) "id" = _
        exact objGet_objSet_self _ _ _ _ rfl
      rw [h1, ← hform, objGet_deleteField_other _ _ _ (by decide)]
    · intro k hk
      show objGet (objSet (vObj (fields.filter (fun p => p.1 != "id"))) "id"
        (objGet (vObj (fields.filter (fun p => p.1 != "id"))) "Id")) k =
        objGet (deleteField (vObj fields) "id") k
      rw [hform]
      exact objGet_objSet_other _ _ _ _ hk

/-- Witness for the amended C3 at data `{id: 1, Id: 7, title: "t"}` with a
succeeding transport: the body is the stripped serialization and the result
is the normalized stripped data. -/
theorem claim_C3_witness :
    (update "http://api" "posts" (vNum 7) (vObj [("id", vNum 1), ("Id", vNum 7), ("title", vStr "t")])
      (fun _ => (Except.ok { json := vObj [] } : Except Unit HttpResponse))).request.body =
      some (jsonStringify (vObj [("Id", vNum 7), ("title", vStr "t")])) ∧
    (update "http://api" "posts" (vNum 7) (vObj [("id", vNum 1), ("Id", vNum 7), ("title", vStr "t")])
      (fun _ => (Except.ok { json := vObj [] } : Except Unit HttpResponse))).result =
      .ok { data := vObj [("Id", vNum 7), ("title", vStr "t"), ("id", vNum 7)] } := by
  have h := claim_C3_amended "http://api" "posts" (vNum 7)
    (vObj [("id", vNum 1), ("Id", vNum 7), ("title", vStr "t")])
    (fun _ => (Except.ok { json := vObj [] } : Except Unit HttpResponse))
  exact ⟨h.1, h.2.1 { json := vObj [] } rfl⟩

/-- Claim C8: `updateMany` on `N` ids dispatches exactly `N` PUT requests,
one per id in order, all carrying the identical serialized body, and when
every request succeeds it resolves with the array of each response's `Id`
field, positionally matching the input ids. -/
theorem claim_C8 {ε : Type} (apiUrl resource : String) (ids : List JValue) (data : JValue)
    (client : Request → Except ε HttpResponse) (f : Request → HttpResponse) :
    (updateMany apiUrl resource ids data client).1.length = ids.length ∧
    (updateMany apiUrl resource ids data client).1 =
      ids.map (updateManyRequest apiUrl resource data) ∧
    (∀ r ∈ (updateMany apiUrl resource ids data client).1,
      r.method = "PUT" ∧ r.body = some (jsonStringify data)) ∧
    ((∀ r ∈ updateManyRequests apiUrl resource ids data, client r = .ok (f r)) →
      (updateMany apiUrl resource ids data client).2 = .ok { data := vArr (ids.map (fun id =>
        objGet (f (updateManyRequest apiUrl resource data id)).json "Id")) }) := by
  refine ⟨List.length_map ids _, rfl, ?_, ?_⟩
  · intro r hr
    obtain ⟨id, _, hid⟩ := List.mem_map.mp hr
    rw [← hid]
    exact ⟨rfl, rfl⟩
  · intro hok
    have hres : (updateMany apiUrl resource ids data client).2 =
        (promiseAll ((updateManyRequests apiUrl resource ids data).map client)).map
          (fun responses =>
            ({ data := vArr (responses.map (fun resp => objGet resp.json "Id")) } :
              DataResult)) := rfl
    rw [hres, promiseAll_map_ok _ client f hok]
    show Except.ok ({ data := vArr ((((ids.map (updateManyRequest apiUrl resource data)).map
      f).map (fun resp => objGet resp.json "Id"))) } : DataResult) = _
    rw [List.map_map, List.map_map]
    rfl

/-- Witness for C8: two ids, a transport answering `{Id: 9}` to every PUT:
two requests are issued and the result is `{data: [9, 9]}`. -/
theorem claim_C8_witness :
    (updateMany "http://api" "posts" [vNum 1, vNum 2] (vObj [("title", vStr "z")])
      (fun _ => (Except.ok { json := vObj [("Id", vNum 9)] } :
        Except String HttpResponse))).1.length = 2 ∧
    (updateMany "http://api" "posts" [vNum 1, vNum 2] (vObj [("title", vStr "z")])
      (fun _ => (Except.ok { json := vObj [("Id", vNum 9)] } :
        Except String HttpResponse))).2 = .ok { data := vArr [vNum 9, vNum 9] } := by
  have h := claim_C8 "http://api" "posts" [vNum 1, vNum 2] (vObj [("title", vStr "z")])
    (fun _ => (Except.ok { json := vObj [("Id", vNum 9)] } : Except String HttpResponse))
    (fun _ => { json := vObj [("Id", vNum 9)] })
  exact ⟨h.1, h.2.2.2 (fun r _ => rfl)⟩

/-- Claim C10: `update` mutates the caller's `params.data` in place — the
`id` field is deleted before the PUT is dispatched (the request body is the
stripped serialization), so when the request rejects the caller's data no
longer contains `id`; the deletion is not rolled back and the rejection is
passed through. -/
theorem claim_C10 {ε : Type} (apiUrl resource : String) (id data : JValue)
    (client : Request → Except ε HttpResponse) (e : ε)
    (herr : client (updateRequest apiUrl resource id data) = .error e) :
    (update apiUrl resource id data client).finalData = deleteField data "id" ∧
    objGet (update apiUrl resource id data client).finalData "id" = vUndef ∧
    (update apiUrl resource id data client).request.body =
      some (jsonStringify (deleteField data "id")) ∧
    (update apiUrl resource id data client).result = .error e := by
  have hrun : update apiUrl resource id data client =
      { finalData := deleteField data "id", request := updateRequest apiUrl resource id data,
        result := .error e } := by
    simp [update, herr]
  rw [hrun]
  exact ⟨rfl, objGet_deleteField_self data "id", rfl, rfl⟩

/-- Witness for C10 at data `{id: 1, title: "t"}` with a rejecting
transport: the caller's data ends as `{title: "t"}`, with no `id`. -/
theorem claim_C10_witness :
    (update "http://api" "posts" (vNum 1) (vObj [("id", vNum 1), ("title", vStr "t")])
      (fun _ => (Except.error "network" : Except String HttpResponse))).finalData =
      vObj [("title", vStr "t")] ∧
    objGet (update "http://api" "posts" (vNum 1) (vObj [("id", vNum 1), ("title", vStr "t")])
      (fun _ => (Except.error "network" : Except String HttpResponse))).finalData "id" = vUndef ∧
    (update "http://api" "posts" (vNum 1) (vObj [("id", vNum 1), ("title", vStr "t")])
      (fun _ => (Except.error "network" : Except String HttpResponse))).result =
      .error "network" := by
  have h := claim_C10 "http://api" "posts" (vNum 1) (vObj [("id", vNum 1), ("title", vStr "t")])
    (fun _ => (Except.error "network" : Except String HttpResponse)) "network" rfl
  exact ⟨h.1, h.2.1, h.2.2.2⟩

/-- Claim C9: for the fan-out operations `updateMany` and `deleteMany`, one
rejecting sub-request rejects the whole composite (whose error is one of
the sub-requests' errors — no partial success, no translation); and for
every handler a transport rejection propagates to the caller unchanged. -/
theorem claim_C9 {ε : Type} (apiUrl resource target : String) (id data : JValue)
    (ids : List JValue) (flatFilter : List (String × QVal)) (page perPage : Int)
    (field order : String) (client : Request → Except ε HttpResponse) (e : ε) :
    (∀ r ∈ updateManyRequests apiUrl resource ids data, client r = .error e →
      ∃ e2, (updateMany apiUrl resource ids data client).2 = .error e2 ∧
        Except.error e2 ∈ (updateManyRequests apiUrl resource ids data).map client) ∧
    (∀ r ∈ deleteManyRequests apiUrl resource ids, client r = .error e →
      ∃ e2, (deleteMany apiUrl resource ids client).2 = .error e2 ∧
        Except.error e2 ∈ (deleteManyRequests apiUrl resource ids).map client) ∧
    (client (getList apiUrl resource flatFilter page perPage field order client).1 = .error e →
      (getList apiUrl resource flatFilter page perPage field order client).2 = .error e) ∧
    (client (getOne apiUrl resource id client).1 = .error e →
      (getOne apiUrl resource id client).2 = .error e) ∧
    (client (getMany apiUrl resource ids client).1 = .error e →
      (getMany apiUrl resource ids client).2 = .error e) ∧
    (client (getManyReference apiUrl resource target id client).1 = .error e →
      (getManyReference apiUrl resource target id client).2 = .error e) ∧
    (client (updateRequest apiUrl resource id data) = .error e →
      (update apiUrl resource id data client).result = .error e) ∧
    (client (create apiUrl resource data client).1 = .error e →
      (create apiUrl resource data client).2 = .error e) ∧
    (client (deleteOne apiUrl resource data client).1 = .error e →
      (deleteOne apiUrl resource data client).2 = .error e) := by
  refine ⟨?_, ?_, ?_, ?_, ?_, ?_, ?_, ?_, ?_⟩
  · intro r hr herr
    have hmem : Except.error e ∈ (updateManyRequests apiUrl resource ids data).map client :=
      List.mem_map.mpr ⟨r, hr, herr⟩
    obtain ⟨e2, he2, hin⟩ := promiseAll_error_of_mem _ e hmem
    refine ⟨e2, ?_, hin⟩
    have hres : (updateMany apiUrl resource ids data client).2 =
        (promiseAll ((updateManyRequests apiUrl resource ids data).map client)).map
          (fun responses =>
            ({ data := vArr (responses.map (fun resp => objGet resp.json "Id")) } :
              DataResult)) := rfl
    rw [hres, he2]
    rfl
  · intro r hr herr
    have hmem : Except.error e ∈ (deleteManyRequests apiUrl resource ids).map client :=
      List.mem_map.mpr ⟨r, hr, herr⟩
    obtain ⟨e2, he2, hin⟩ := promiseAll_error_of_mem _ e hmem
    refine ⟨e2, ?_, hin⟩
    have hres : (deleteMany apiUrl resource ids client).2 =
        (promiseAll ((deleteManyRequests apiUrl resource ids).map client)).map
          (fun _ => ({ data := idFunc (vArr ids) } : DataResult)) := rfl
    rw [hres, he2]
    rfl
  · intro h
    simp only [getList] at h ⊢
    rw [h]
    rfl
  · intro h
    simp only [getOne] at h ⊢
    rw [h]
    rfl
  · intro h
    simp only [getMany] at h ⊢
    rw [h]
    rfl
  · intro h
    simp only [getManyReference] at h ⊢
    rw [h]
    rfl
  · intro h
    simp [update, h]
  · intro h
    simp only [create] at h ⊢
    rw [h]
    rfl
  · intro h
    simp only [deleteOne] at h ⊢
    rw [h]
    rfl

/-- Witness for C9: with a transport that rejects every request with
`"network"`, each handler rejects, and `updateMany`/`deleteMany` on the id
list `[1]` reject with a sub-request's error. -/
theorem claim_C9_witness :
    (∃ e2, (updateMany "http://api" "posts" [vNum 1] (vObj [("title", vStr "t")])
        (fun _ => (Except.error "network" : Except String HttpResponse))).2 = .error e2 ∧
      Except.error e2 ∈ (updateManyRequests "http://api" "posts" [vNum 1]
        (vObj [("title", vStr "t")])).map
          (fun _ => (Except.error "network" : Except String HttpResponse))) ∧
    (∃ e2, (deleteMany "http://api" "posts" [vNum 1]
        (fun _ => (Except.error "network" : Except String HttpResponse))).2 = .error e2 ∧
      Except.error e2 ∈ (deleteManyRequests "http://api" "posts" [vNum 1]).map
        (fun _ => (Except.error "network" : Except String HttpResponse))) ∧
    (getList "http://api" "posts" [] 1 10 "title" "ASC"
      (fun _ => (Except.error "network" : Except String HttpResponse))).2 = .error "network" ∧
    (update "http://api" "posts" (vNum 1) (vObj [("title", vStr "t")])
      (fun _ => (Except.error "network" : Except String HttpResponse))).result =
      .error "network" := by
  have h := claim_C9 "http://api" "posts" "author_id" (vNum 1) (vObj [("title", vStr "t")])
    [vNum 1] [] 1 10 "title" "ASC"
    (fun _ => (Except.error "network" : Except String HttpResponse)) "network"
  refine ⟨?_, ?_, h.2.2.1 rfl, h.2.2.2.2.2.2.1 rfl⟩
  · exact h.1 (updateManyRequest "http://api" "posts" (vObj [("title", vStr "t")]) (vNum 1))
      (List.Mem.head _) rfl
  · exact h.2.1 (deleteManyRequest "http://api" "posts" (vNum 1)) (List.Mem.head _) rfl
